import Mathlib

/-
Verification of the pedABX_MAAI preprocessing and modelling pipeline.

Shallow embedding of the relevant parts of
`src/data_preprocessing/feature_extractor.py`,
`src/data_preprocessing/config.py` and
`src/model_development/utils.py`.

Conventions of the embedding:
* a pandas float cell is `Option ℚ` (`none` models NaN / missing);
* timestamps are rationals measured in seconds;
* DataFrame columns are Lean lists in row order; a grouped frame is a
  list of groups, each a list of rows in the original row order.
-/

namespace MAAI

/-- A pandas cell: `none` models NaN (a missing value), `some q` a realized
numeric value. -/
abbrev Cell := Option ℚ

/-- Binary arithmetic on cells: NaN propagates, exactly as pandas float
arithmetic does. -/
def cmap2 (f : ℚ → ℚ → ℚ) : Cell → Cell → Cell
  | some a, some b => some (f a b)
  | _, _ => none

/- ### Schema normalization: unit conversion (feature_extractor.py lines 112-114) -/

/-- One long-format observation row as it enters the cleaning steps:
just the fields the unit-conversion lines read and write. -/
structure RawObs where
  variable_name : String
  value : ℚ
deriving DecidableEq, Inhabited

/-- Round-half-to-even of a rational to an integer: the semantics of
Python's `round` on an exactly representable value. -/
def roundHalfEven (x : ℚ) : ℤ :=
  if Int.fract x < 1 / 2 then ⌊x⌋
  else if 1 / 2 < Int.fract x then ⌊x⌋ + 1
  else if Even ⌊x⌋ then ⌊x⌋ else ⌊x⌋ + 1

/-- Python's `round(x, 2)`: round-half-even at two decimal places. -/
def round2 (x : ℚ) : ℚ := (roundHalfEven (x * 100) : ℚ) / 100

/-- The conversion `round((x - 32) * (5 / 9), 2)` applied to `temp` rows. -/
def fahrenheitToCelsius (x : ℚ) : ℚ := round2 ((x - 32) * (5 / 9))

/-- The conversion `round(x / 16, 2)` applied to `weight` rows. -/
def ouncesToPounds (x : ℚ) : ℚ := round2 (x / 16)

/-- The two `df.loc[df['variable_name'] == ...]` unit-conversion assignments:
temperature rows are converted F→C, weight rows oz→lb, all other rows are
left untouched. -/
def unitConvert (rows : List RawObs) : List RawObs :=
  rows.map fun r =>
    if r.variable_name = "temp" then { r with value := fahrenheitToCelsius r.value }
    else if r.variable_name = "weight" then { r with value := ouncesToPounds r.value }
    else r

/- ### Variable exclusion and pivoting (feature_extractor.py line 103, 137) -/

/-- The fixed exclusion list of `df[~df['variable_name'].isin([...])]`
(feature_extractor.py line 103). -/
def droppedVariables : List String :=
  ["activity", "map", "coma_scale", "base_excess", "art_ph", "cap_ph", "venous_ph",
   "bun_creat", "bilirubin", "bun", "periph_vasc", "tidal_vol", "pao2"]

/-- The row filter `df[~df['variable_name'].isin(droppedVariables)]`. -/
def filterDropped (rows : List RawObs) : List RawObs :=
  rows.filter fun r => !droppedVariables.contains r.variable_name

/-- The value columns of `pd.pivot_table(df, values='value', ...,
columns='variable_name')`: one column per distinct surviving variable name. -/
def pivotColumns (rows : List RawObs) : List String :=
  ((filterDropped rows).map RawObs.variable_name).dedup

/-- The index/key columns kept alongside the pivoted features once the table
is aggregated per hour (`groupby(['patid', 'csn', 'gender', 'hour'])`). -/
def hourlyBaseColumns (rows : List RawObs) : List String :=
  ["patid", "csn", "gender", "hour"] ++ pivotColumns rows

/-- The column names `create_advanced_features` adds, as a function of the
columns of its input frame: each block is guarded by the same
`if col in df.columns` tests as the Python code. -/
def advancedColumns (cols : List String) : List String :=
  ((["lactic_acid", "wbc", "creatinine", "pulse", "resp", "temp"].filter
      fun c => cols.contains c).map fun c => c ++ "_roc_3hr")
  ++ (if "bun" ∈ cols ∧ "creatinine" ∈ cols then ["bun_cr_ratio"] else [])
  ++ (if "spo2" ∈ cols ∧ "fio2" ∈ cols then ["sf_ratio"] else [])
  ++ (if "neutrophils" ∈ cols ∧ "lymphocytes" ∈ cols then
        ["neutrophil_lymphocyte_ratio"] else [])
  ++ (if "sodium" ∈ cols ∧ "chloride" ∈ cols ∧ "bicarbonate" ∈ cols then
        ["anion_gap", "delta_anion_gap"] else [])
  ++ (if "pulse" ∈ cols ∧ "bp_sys" ∈ cols then
        ["shock_index", "age_years", "sipa_threshold", "age_adjusted_shock_index"]
      else [])
  ++ ((["pulse", "resp", "temp", "map"].filter fun c => cols.contains c).map
      fun c => c ++ "_zscore")
  ++ ["hour_sin", "hour_cos"]

/- ### Hourly aggregation (feature_extractor.py lines 172-176) -/

/-- One observation row as it reaches the final hourly aggregation: the
encounter key `csn`, the already computed integer `hour` and a value. -/
structure HourObs where
  csn : ℕ
  hour : ℤ
  value : ℚ
deriving DecidableEq

/-- The row keys the hourly table has for encounter `c`: the
`groupby(['patid', 'csn', 'gender', 'hour']).median()` produces exactly one
row per distinct hour value present among the encounter's observations. -/
def encounterHours (obs : List HourObs) (c : ℕ) : List ℤ :=
  ((obs.filter fun o => o.csn == c).map HourObs.hour).dedup

/- ### Sequence windower (model_development/utils.py, create_sequences) -/

/-- One hourly row of the flat feature matrix handed to `create_sequences`:
the three per-family feature blocks and the target column value. -/
structure SeqRow where
  vitals : List ℚ
  labs : List ℚ
  meds : List ℚ
  label : ℚ
deriving DecidableEq, Inhabited

/-- The loop body of `create_sequences` for one patient group: for each `i`
in `range(len(group) - lookback_window)` it appends the row slices
`vitals[i : i + L]`, `labs[i : i + L]`, `meds[i : i + L]` and the label
`labels[i + L - 1]`. -/
def createSequencesGroup (rows : List SeqRow) (L : ℕ) :
    List (List (List ℚ) × List (List ℚ) × List (List ℚ) × ℚ) :=
  (List.range (rows.length - L)).map fun i =>
    (((rows.drop i).take L).map SeqRow.vitals,
     ((rows.drop i).take L).map SeqRow.labs,
     ((rows.drop i).take L).map SeqRow.meds,
     (rows.getD (i + L - 1) default).label)

/- ### Derived clinical ratios (feature_extractor.py, create_advanced_features) -/

/-- An IEEE-754-style float value as pandas/numpy arithmetic produces it:
besides finite values and NaN, division can produce signed infinities. -/
inductive PFloat
  | nan
  | posInf
  | negInf
  | num (q : ℚ)
deriving DecidableEq

/-- Elementwise float division as numpy performs it inside
`df['bun'] / df['creatinine']` and the other ratio columns: NaN propagates,
a zero denominator under a nonzero finite numerator gives a signed
infinity, `0/0` gives NaN; no case raises. -/
def PFloat.div : PFloat → PFloat → PFloat
  | nan, _ => nan
  | _, nan => nan
  | num a, num b =>
      if b = 0 then
        if a = 0 then nan else if 0 < a then posInf else negInf
      else num (a / b)
  | num _, posInf => num 0
  | num _, negInf => num 0
  | posInf, num b => if 0 ≤ b then posInf else negInf
  | negInf, num b => if 0 ≤ b then negInf else posInf
  | posInf, _ => nan
  | negInf, _ => nan

/-- The test `pandas.isna` on a float cell: true exactly for NaN — an infinity is
NOT a missing-value marker and is not touched by any later fill. -/
def PFloat.isna : PFloat → Bool
  | nan => true
  | _ => false

/-- The source columns one hourly row feeds into the ratio computations of
`create_advanced_features`. -/
structure RatioRow where
  bun : PFloat
  creatinine : PFloat
  spo2 : PFloat
  fio2 : PFloat
  neutrophils : PFloat
  lymphocytes : PFloat
  pulse : PFloat
  bp_sys : PFloat
deriving DecidableEq

/-- The column `df['bun_cr_ratio'] = df['bun'] / df['creatinine']`. -/
def bunCrRatio (r : RatioRow) : PFloat := r.bun.div r.creatinine

/-- The column `df['sf_ratio'] = df['spo2'] / (df['fio2'] / 100)`. -/
def sfRatio (r : RatioRow) : PFloat := r.spo2.div (r.fio2.div (PFloat.num 100))

/-- The column `df['neutrophil_lymphocyte_ratio'] = df['neutrophils'] / df['lymphocytes']`. -/
def nlRatio (r : RatioRow) : PFloat := r.neutrophils.div r.lymphocytes

/-- The column `df['shock_index'] = df['pulse'] / df['bp_sys']`. -/
def shockIndex (r : RatioRow) : PFloat := r.pulse.div r.bp_sys

/- ### Event flag extraction (feature_extractor.py lines 157-167) -/

/-- Lowercasing of a text, the comparison `str.contains(..., case=False)`
performs on both sides. -/
def lowerStr (s : List Char) : List Char := s.map Char.toLower

/-- Exact mode, one diagnosis cell: `diag_df[col].str.contains('|'.join(
keywords), case=False, na=False).astype(int)`.  The configured keyword lists
contain no regex metacharacters, so the compiled alternation matches iff
some keyword occurs as a case-insensitive substring; `na=False` sends a
missing cell to `False`, hence flag `0`. -/
def diagFlag (kws : List (List Char)) (text : Option (List Char)) : ℕ :=
  match text with
  | none => 0
  | some t => if kws.any fun k => decide ( List.IsInfix (lowerStr k) (lowerStr t)) then 1 else 0

/-- The score `process.extractOne(x, keywords, scorer=fuzz.token_set_ratio)[1]`:
the best (maximal) scorer value over the keyword list.  The token-set
similarity scorer itself is the swappable 0-100 similarity interface of the
design and is taken as a parameter. -/
def bestScore (scorer : List Char → List Char → ℕ) (t : List Char)
    (kws : List (List Char)) : ℕ :=
  (kws.map (scorer t)).foldr max 0

/-- Fuzzy mode, one medication cell:
`1 if process.extractOne(x, keywords, scorer=fuzz.token_set_ratio)[1] >= 80 else 0`. -/
def medFlag (scorer : List Char → List Char → ℕ) (kws : List (List Char))
    (t : List Char) : ℕ :=
  if 80 ≤ bestScore scorer t kws then 1 else 0

/- ### Population statistics: median and percentiles -/

/-- Ascending sort of a value list (numpy/pandas sort the realized values
before computing order statistics). -/
def sortAsc (xs : List ℚ) : List ℚ := List.insertionSort (· ≤ ·) xs

/-- The statistic `pandas.Series.median()` over the realized (non-NaN) values: the middle
element of the sorted list, or the mean of the two middle elements; NaN
(`none`) when there is no realized value. -/
def medianQ (xs : List ℚ) : Option ℚ :=
  let ys := sortAsc xs
  if ys.length = 0 then none
  else if ys.length % 2 = 1 then some (ys.getD (ys.length / 2) 0)
  else some ((ys.getD (ys.length / 2 - 1) 0 + ys.getD (ys.length / 2) 0) / 2)

/-- Linear interpolation between the order statistics around a fractional
position, numpy's default interpolation for percentiles. -/
def quantilePos (ys : List ℚ) (pos : ℚ) : ℚ :=
  ys.getD (⌊pos⌋).toNat 0 * (1 - (pos - ⌊pos⌋)) + ys.getD (⌈pos⌉).toNat 0 * (pos - ⌊pos⌋)

/-- The statistic `np.nanpercentile(xs, q)`: linear-interpolated order statistic at
position `q / 100 * (n - 1)` of the sorted realized values; NaN on an empty
sample. -/
def nanpercentile (xs : List ℚ) (q : ℚ) : Option ℚ :=
  if xs.isEmpty then none
  else some (quantilePos (sortAsc xs) (q / 100 * ((xs.length : ℚ) - 1)))

/- ### Outlier clipping (feature_extractor.py lines 140-145) -/

/-- The realized (non-NaN) values of a column — exactly the sample
`np.nanpercentile` works on. -/
def realizedVals (col : List Cell) : List ℚ := col.filterMap id

/-- The step `Series.clip(lower=p1, upper=p99)` on one cell: a missing cell stays
missing, a missing bound imposes no constraint, the lower bound is applied
before the upper. -/
def clipCell (lo hi : Option ℚ) (c : Cell) : Cell :=
  c.map fun v =>
    let v1 := match lo with
      | some l => max l v
      | none => v
    match hi with
    | some h => min h v1
    | none => v1

/-- The loop body for one clipped column: 1st and 99th population
percentiles of the column's realized values, then clipping of every cell. -/
def clipColumn (col : List Cell) : List Cell :=
  col.map (clipCell (nanpercentile (realizedVals col) 1) (nanpercentile (realizedVals col) 99))

/-- One named feature column of the pivoted table. -/
structure FeatureColumn where
  name : String
  cells : List Cell
deriving DecidableEq, Inhabited

/-- The list `config.VITALS_FEATURES`. -/
def VITALS_FEATURES : List String :=
  ["weight", "pulse", "map", "bp_sys", "bp_dias", "resp", "spo2", "temp", "fio2",
   "pao2_fio2", "o2_flow", "coma_scale_total", "pupil_left_size",
   "pupil_right_size", "urine", "vol_infused", "cap_refill"]

/-- The list `config.LABS_FEATURES`. -/
def LABS_FEATURES : List String :=
  ["ph", "po2", "pco2", "potassium", "sodium", "chloride", "glucose", "bun",
   "creatinine", "calcium", "calcium_ionized", "co2", "hemoglobin",
   "bilirubin_total", "albumin", "wbc", "platelets", "ptt", "base_excess",
   "bicarbonate", "lactic_acid", "base_deficit", "band_neutrophils", "alt",
   "ast", "pt", "inr", "ddimer", "fibrinogen", "lymphocytes", "neutrophils"]

/-- The selection `[v for v in config.VITALS_FEATURES + config.LABS_FEATURES
     if v in df.columns and v != 'cap_refill']`. -/
def variablesToClip (cols : List String) : List String :=
  (VITALS_FEATURES ++ LABS_FEATURES).filter fun v =>
    decide (v ∈ cols) && decide (v ≠ "cap_refill")

/-- The whole outlier-removal loop over the pivoted table: every column
named by `variablesToClip` is clipped to its own [p1, p99], the rest are
untouched. -/
def outlierClip (table : List FeatureColumn) : List FeatureColumn :=
  table.map fun fc =>
    if fc.name ∈ variablesToClip (table.map FeatureColumn.name) then
      { fc with cells := clipColumn fc.cells }
    else fc

/- ### Forward fill (pandas groupby(...).ffill()) -/

/-- One step of `Series.ffill()` given the value carried in from earlier rows: a
realized cell replaces the carry, a missing cell takes the carry. -/
def ffillFrom (last : Cell) : List Cell → List Cell
  | [] => []
  | x :: rest =>
      match x with
      | some v => some v :: ffillFrom (some v) rest
      | none => last :: ffillFrom last rest

/-- The fill `Series.ffill()` on one group's column: carry the last realized value
forward, with nothing carried in before the first row. -/
def ffill (s : List Cell) : List Cell := ffillFrom none s

/-- The last realized value of the column `s` at or before position `i`. -/
def lastRealizedAt (s : List Cell) (i : ℕ) : Cell :=
  ((s.take (i + 1)).filterMap id).getLast?

/- ### The imputation of feature_extractor.py line 151 and its spec reading -/

/-- The fill `df.groupby('csn')['temp'].ffill().fillna(df['temp'].median())` over a
table given as one temperature column per encounter: per-encounter uncapped
forward fill, then the population median of all realized values for cells
still missing.  (A NaN median, possible only when no value is realized
anywhere, fills nothing.) -/
def codeImputeTemp (encs : List (List Cell)) : List (List Cell) :=
  let m := medianQ ((encs.flatMap id).filterMap id)
  encs.map fun e =>
    (ffill e).map fun c =>
      match c with
      | some v => some v
      | none => m

/-- Modelled from the spec: the forward fill the Imputer contract describes,
carrying a last-known value forward at most `limit` hours — a value at
position `j` reaches position `i` only when `i - j ≤ limit`; beyond that the
cell stays missing even when an older realized value exists.  Stated for
comparison with the code's uncapped `ffill`. -/
def specFfillLimited (limit : ℕ) (s : List Cell) : List Cell :=
  (List.range s.length).map fun i =>
    (((s.take (i + 1)).drop (i - limit)).filterMap id).getLast?

/-- Modelled from the spec: the two-pass Imputer of the spec (capped forward
fill, then population-median fallback), applied to the temperature column. -/
def specImputeTemp (limit : ℕ) (encs : List (List Cell)) : List (List Cell) :=
  let m := medianQ ((encs.flatMap id).filterMap id)
  encs.map fun e =>
    (specFfillLimited limit e).map fun c =>
      match c with
      | some v => some v
      | none => m

/- ### Temperature correction of pulse and resp (feature_extractor.py lines 150-155) -/

/-- The columns of one row that the temperature-correction block reads and
writes, plus the age used to choose the respiratory coefficient. -/
structure VitalRow where
  pulse : Cell
  resp : Cell
  temp : Cell
  ageYears : ℚ
deriving DecidableEq, Inhabited

/-- The `temp_imputed` helper column for one encounter:
`df.groupby('csn')['temp'].ffill().fillna(df['temp'].median())`, where the
median is taken over every encounter's realized temperatures. -/
def tempImputedCol (encs : List (List VitalRow)) (e : List VitalRow) : List Cell :=
  let m := medianQ ((encs.flatMap fun g => g.map VitalRow.temp).filterMap id)
  (ffill (e.map VitalRow.temp)).map fun c =>
    match c with
    | some v => some v
    | none => m

/-- The three correction assignments applied to one encounter:
`pulse -= 10 * (temp_imputed - 37)`, and `resp -= 7 * (temp_imputed - 37)`
below two years of age, `resp -= 5 * (temp_imputed - 37)` at two years or
older. -/
def correctEncounter (encs : List (List VitalRow)) (e : List VitalRow) : List VitalRow :=
  e.zipWith
    (fun r ti =>
      { r with
        pulse := cmap2 (fun p t => p - 10 * (t - 37)) r.pulse ti
        resp :=
          if r.ageYears < 2 then cmap2 (fun p t => p - 7 * (t - 37)) r.resp ti
          else cmap2 (fun p t => p - 5 * (t - 37)) r.resp ti })
    (tempImputedCol encs e)

/-- The whole temperature-correction stage over the per-encounter groups. -/
def temperatureCorrection (encs : List (List VitalRow)) : List (List VitalRow) :=
  encs.map (correctEncounter encs)

/- ### First-week filter and hour index (feature_extractor.py lines 133-134, 172) -/

/-- One observation row entering the stay-window filter: the encounter key
and the two timestamps (in seconds) the filter and the hour index read. -/
structure TimedObs where
  csn : ℕ
  recorded : ℚ
  admission : ℚ
deriving DecidableEq

/-- The column `rel_day = np.ceil((recorded_time - hosp_admission) / Timedelta('1 day'))`. -/
def relDay (o : TimedObs) : ℤ := ⌈(o.recorded - o.admission) / 86400⌉

/-- The row filter `df[(df['rel_day'] > 0) & (df['rel_day'] < 8)]`. -/
def keepFirstWeek (obs : List TimedObs) : List TimedObs :=
  obs.filter fun o => decide (0 < relDay o ∧ relDay o < 8)

/-- The key `df.groupby('csn')['hosp_admission'].transform('min')` for the group of
encounter `c` of the (already filtered) table. -/
def groupMinAdmission (obs : List TimedObs) (c : ℕ) : Option ℚ :=
  ((obs.filter fun o => o.csn == c).map TimedObs.admission).min?

/-- The hour index
`(recorded_time - groupby('csn')['hosp_admission'].transform('min'))
 .dt.total_seconds() // 3600` of one row of the filtered table. -/
def hourOfRow (kept : List TimedObs) (o : TimedObs) : Option ℤ :=
  (groupMinAdmission kept o.csn).map fun m => ⌊(o.recorded - m) / 3600⌋

/- ### Concrete sample data used by witnesses -/

/-- Three hourly rows with distinct labels, a minimal windowing example. -/
def seqRowsEx : List SeqRow :=
  [⟨[1], [2], [3], 10⟩, ⟨[4], [5], [6], 20⟩, ⟨[7], [8], [9], 30⟩]

/-- Two raw observations: a temperature in Fahrenheit and a weight in ounces. -/
def rawObsEx : List RawObs := [⟨"temp", 212⟩, ⟨"weight", 32⟩]

/-- Three encounters' temperature columns: one with a two-hour gap after a
realized value, two fully realized. -/
def impEncsEx : List (List Cell) := [[some 5, none, none], [some 1], [some 1]]

/-- One observation one hour after admission. -/
def timedObsEx : TimedObs := ⟨1, 3600, 0⟩

/-- A one-row observation table. -/
def timedTableEx : List TimedObs := [⟨1, 3600, 0⟩]

/-- One encounter: a febrile first hour, then a missing temperature. -/
def vitalEncsEx : List (List VitalRow) :=
  [[⟨some 120, some 30, some 39, 1⟩, ⟨some 110, some 25, none, 1⟩]]

/-- A pivoted table with a single pulse column holding one realized value. -/
def clipTableEx : List FeatureColumn := [⟨"pulse", [some 4]⟩]

/- ## Theorems -/

/-- C1 (counterexample): an encounter (csn 1) observed at hours 0 and 2
only.  The hourly table built by `groupby(...).median()` has rows for hours
0 and 2 — the encounter's minimum and maximum observed hours — but none for
hour 1 in between, refuting the no-gaps claim. -/
theorem C1_hourly_gap_counterexample :
    (0 ∈ encounterHours [⟨1, 0, 1⟩, ⟨1, 2, 1⟩] 1)
    ∧ (2 ∈ encounterHours [⟨1, 0, 1⟩, ⟨1, 2, 1⟩] 1)
    ∧ 1 ∉ encounterHours [⟨1, 0, 1⟩, ⟨1, 2, 1⟩] 1 := by decide

/-- C1 (amended): the hourly table contains exactly one record per hour
index at which the encounter has at least one observation — the hour keys
are duplicate-free and an hour is present iff some observation of the
encounter fell in it; hours with no observation get no record, so the hour
sequence can have gaps. -/
theorem C1_hourly_rows_exactly_observed (obs : List HourObs) (c : ℕ) :
    (encounterHours obs c).Nodup
    ∧ ∀ h : ℤ, h ∈ encounterHours obs c ↔ ∃ o ∈ obs, o.csn = c ∧ o.hour = h := by
  refine ⟨List.nodup_dedup _, fun h => ?_⟩
  simp only [encounterHours, List.mem_dedup, List.mem_map, List.mem_filter, beq_iff_eq]
  constructor
  · rintro ⟨o, ⟨ho, hc⟩, hh⟩
    exact ⟨o, ho, hc, hh⟩
  · rintro ⟨o, ho, hc, hh⟩
    exact ⟨o, ⟨ho, hc⟩, hh⟩

/-- C2: for a group with `R` hourly rows and lookback `L ≥ 1`,
`create_sequences` emits exactly `max 0 (R − L)` windows; the `i`-th window
is the row slice `[i, i+L−1]` (of length `L`), its label is the label of
row `i + L − 1`, and that row is the LAST row inside the window — never a
later one; a group with `R ≤ L` rows yields no window and no error. -/
theorem C2_createSequences_windows (rows : List SeqRow) (L : ℕ) (hL : 1 ≤ L) :
    (createSequencesGroup rows L).length = rows.length - L
    ∧ ((createSequencesGroup rows L).length : ℤ) = max 0 ((rows.length : ℤ) - (L : ℤ))
    ∧ (rows.length ≤ L → createSequencesGroup rows L = [])
    ∧ ∀ i (hi : i < (createSequencesGroup rows L).length),
        ∃ hlast : i + L - 1 < rows.length,
          (createSequencesGroup rows L).get ⟨i, hi⟩ =
            (((rows.drop i).take L).map SeqRow.vitals,
             ((rows.drop i).take L).map SeqRow.labs,
             ((rows.drop i).take L).map SeqRow.meds,
             rows[i + L - 1].label)
          ∧ ((rows.drop i).take L).length = L
          ∧ ((rows.drop i).take L).getLast? = some rows[i + L - 1] := by
  have hlen : (createSequencesGroup rows L).length = rows.length - L := by
    simp [createSequencesGroup]
  refine ⟨hlen, by rw [hlen]; omega, ?_, ?_⟩
  · intro hRL
    exact List.length_eq_zero.mp (by rw [hlen]; omega)
  · intro i hi
    have hiR : i < rows.length - L := hlen ▸ hi
    have hlast : i + L - 1 < rows.length := by omega
    have hslice : ((rows.drop i).take L).length = L := by
      rw [List.length_take, List.length_drop]
      omega
    refine ⟨hlast, ?_, hslice, ?_⟩
    · have hget : (createSequencesGroup rows L).get ⟨i, hi⟩ =
          (((rows.drop i).take L).map SeqRow.vitals,
           ((rows.drop i).take L).map SeqRow.labs,
           ((rows.drop i).take L).map SeqRow.meds,
           (rows.getD (i + L - 1) default).label) := by
        simp [createSequencesGroup]
      rw [hget, List.getD_eq_getElem?_getD, List.getElem?_eq_getElem hlast]
      rfl
    · rw [List.getLast?_eq_getElem?, hslice, List.getElem?_take,
        if_pos (by omega : L - 1 < L), List.getElem?_drop,
        show i + (L - 1) = i + L - 1 by omega, List.getElem?_eq_getElem hlast]

/-- C2 (witness): three rows, lookback 2 — one window, and its label 20
is the label of the last row the window covers (`seqRowsEx[1]`). -/
theorem C2_createSequences_windows_witness :
    (createSequencesGroup seqRowsEx 2).length = seqRowsEx.length - 2
    ∧ ((seqRowsEx.drop 0).take 2).getLast? = some ⟨[4], [5], [6], 20⟩ := by
  have h := C2_createSequences_windows seqRowsEx 2 (by norm_num)
  refine ⟨h.1, ?_⟩
  obtain ⟨hlast, -, -, hlq⟩ := h.2.2.2 0 (by rw [h.1]; decide)
  rw [hlq]
  rfl

/-- C4 (counterexample): an hourly row with BUN 90 and creatinine 0.
The computed `bun_cr_ratio` is `+inf`, a signed infinity, which pandas does
NOT consider a missing value (`isna` is false) — so a zero denominator does
not yield the explicit undefined/missing marker the claim requires. -/
theorem C4_zero_denominator_counterexample :
    bunCrRatio ⟨PFloat.num 90, PFloat.num 0, PFloat.num 0, PFloat.num 0,
        PFloat.num 0, PFloat.num 0, PFloat.num 0, PFloat.num 0⟩ = PFloat.posInf
    ∧ (bunCrRatio ⟨PFloat.num 90, PFloat.num 0, PFloat.num 0, PFloat.num 0,
        PFloat.num 0, PFloat.num 0, PFloat.num 0, PFloat.num 0⟩).isna = false := by
  decide

/-- C4 (amended): each derived ratio is an elementwise float division
and never raises; a missing (NaN) denominator — or numerator — propagates
NaN, the explicit missing marker, and `0/0` gives NaN; but a ZERO
denominator under a nonzero realized numerator gives a signed infinity,
which is not a missing marker and is not resolved by a later fill stage. -/
theorem C4_ratio_denominator_behavior (a : ℚ) (x : PFloat) (ha : 0 < a) :
    (∀ r : RatioRow,
        bunCrRatio r = r.bun.div r.creatinine
        ∧ nlRatio r = r.neutrophils.div r.lymphocytes
        ∧ shockIndex r = r.pulse.div r.bp_sys
        ∧ sfRatio r = r.spo2.div (r.fio2.div (PFloat.num 100)))
    ∧ PFloat.div x PFloat.nan = PFloat.nan
    ∧ PFloat.div PFloat.nan x = PFloat.nan
    ∧ PFloat.div (PFloat.num 0) (PFloat.num 0) = PFloat.nan
    ∧ PFloat.div (PFloat.num a) (PFloat.num 0) = PFloat.posInf
    ∧ PFloat.div (PFloat.num (-a)) (PFloat.num 0) = PFloat.negInf
    ∧ (PFloat.div (PFloat.num a) (PFloat.num 0)).isna = false := by
  have hane : a ≠ 0 := ne_of_gt ha
  have hdiv : PFloat.div (PFloat.num a) (PFloat.num 0) = PFloat.posInf := by
    simp [PFloat.div, hane, ha]
  refine ⟨fun r => ⟨rfl, rfl, rfl, rfl⟩, by cases x <;> rfl, by cases x <;> rfl,
    by simp [PFloat.div], hdiv, ?_, by rw [hdiv]; rfl⟩
  have h1 : ¬(0 : ℚ) < -a := by linarith
  simp [PFloat.div, neg_eq_zero, hane, h1]

/-- C4 (witness of the amended claim, at numerator 90): `90 / 0 = +inf`
and is not missing, `90 / NaN = NaN`, `-90 / 0 = -inf`. -/
theorem C4_ratio_denominator_behavior_witness :
    PFloat.div (PFloat.num 90) (PFloat.num 0) = PFloat.posInf
    ∧ (PFloat.div (PFloat.num 90) (PFloat.num 0)).isna = false
    ∧ PFloat.div (PFloat.num 90) PFloat.nan = PFloat.nan
    ∧ PFloat.div (PFloat.num (-90)) (PFloat.num 0) = PFloat.negInf := by
  have h := C4_ratio_denominator_behavior 90 (PFloat.num 90) (by norm_num)
  exact ⟨h.2.2.2.2.1, h.2.2.2.2.2.2, h.2.1, h.2.2.2.2.2.1⟩

/-- Helper: a positive threshold is reached by `foldr max 0` iff some list
element reaches it. -/
theorem le_foldr_max_iff (c : ℕ) (hc : 0 < c) (l : List ℕ) :
    c ≤ l.foldr max 0 ↔ ∃ x ∈ l, c ≤ x := by
  induction l with
  | nil => simp; omega
  | cons a t ih => simp [List.foldr_cons, le_max_iff, ih]

/-- C6: the fuzzy-mode medication flag is 1 iff the best token-set
similarity score between the event text and some keyword of the group is at
least 80 (and is otherwise 0, never an error); the exact-mode diagnosis
flag is 1 iff the text contains some keyword as a case-insensitive
substring, a missing text gives flag 0, and every flag is 0 or 1. -/
theorem C6_event_flags (scorer : List Char → List Char → ℕ) (kws : List (List Char))
    (t : List Char) (text : Option (List Char)) :
    (medFlag scorer kws t = 1 ↔ ∃ k ∈ kws, 80 ≤ scorer t k)
    ∧ (medFlag scorer kws t = 0 ∨ medFlag scorer kws t = 1)
    ∧ (diagFlag kws (some t) = 1 ↔ ∃ k ∈ kws, List.IsInfix (lowerStr k) (lowerStr t))
    ∧ diagFlag kws none = 0
    ∧ (diagFlag kws text = 0 ∨ diagFlag kws text = 1) := by
  have key : 80 ≤ bestScore scorer t kws ↔ ∃ k ∈ kws, 80 ≤ scorer t k := by
    unfold bestScore
    rw [le_foldr_max_iff 80 (by norm_num)]
    simp
  refine ⟨?_, ?_, ?_, rfl, ?_⟩
  · unfold medFlag
    constructor
    · intro h1
      by_cases h80 : 80 ≤ bestScore scorer t kws
      · exact key.mp h80
      · rw [if_neg h80] at h1
        omega
    · intro hex
      rw [if_pos (key.mpr hex)]
  · unfold medFlag
    split
    · right; rfl
    · left; rfl
  · unfold diagFlag
    simp only [List.any_eq_true, decide_eq_true_eq]
    split
    · simp_all
    · simp_all
  · cases text with
    | none => left; rfl
    | some s =>
        simp only [diagFlag]
        split
        · right; rfl
        · left; rfl

/-- C7: the unit-conversion step keeps the row count and every
variable name; a `temp` row's value becomes `round((x − 32) * 5/9, 2)`
(Fahrenheit→Celsius), a `weight` row's value becomes `round(x / 16, 2)`
(ounces→pounds), both at two decimal places, and every other row is left
completely unchanged. -/
theorem C7_unitConvert_formulas (rows : List RawObs) (i : ℕ) (hi : i < rows.length) :
    (unitConvert rows).length = rows.length
    ∧ ((unitConvert rows).getD i default).variable_name
        = (rows.getD i default).variable_name
    ∧ ((rows.getD i default).variable_name = "temp" →
        ((unitConvert rows).getD i default).value
          = round2 (((rows.getD i default).value - 32) * (5 / 9)))
    ∧ ((rows.getD i default).variable_name = "weight" →
        ((unitConvert rows).getD i default).value
          = round2 ((rows.getD i default).value / 16))
    ∧ ((rows.getD i default).variable_name ≠ "temp" →
        (rows.getD i default).variable_name ≠ "weight" →
        (unitConvert rows).getD i default = rows.getD i default) := by
  have hbase : rows.getD i default = rows[i] := by
    rw [List.getD_eq_getElem?_getD, List.getElem?_eq_getElem hi]
    rfl
  have hconv : (unitConvert rows).getD i default =
      (if rows[i].variable_name = "temp" then
        { rows[i] with value := fahrenheitToCelsius rows[i].value }
      else if rows[i].variable_name = "weight" then
        { rows[i] with value := ouncesToPounds rows[i].value }
      else rows[i]) := by
    rw [unitConvert, List.getD_eq_getElem?_getD, List.getElem?_map,
      List.getElem?_eq_getElem hi]
    rfl
  refine ⟨by simp [unitConvert], ?_, ?_, ?_, ?_⟩
  · rw [hconv, hbase]
    split
    · rfl
    · split <;> rfl
  · intro ht
    rw [hbase] at ht
    rw [hconv, hbase, if_pos ht]
    rfl
  · intro hw
    rw [hbase] at hw
    have hnt : rows[i].variable_name ≠ "temp" := by
      rw [hw]
      decide
    rw [hconv, hbase, if_neg hnt, if_pos hw]
    rfl
  · intro hnt hnw
    rw [hbase] at hnt hnw
    rw [hconv, hbase, if_neg hnt, if_neg hnw]

/-- C7 (witness): 212 °F converts to 100 °C and 32 oz to 2 lb; the
non-temperature, non-weight case is exercised by the name equality. -/
theorem C7_unitConvert_formulas_witness :
    ((unitConvert rawObsEx).getD 0 default).value = round2 ((212 - 32) * (5 / 9))
    ∧ ((unitConvert rawObsEx).getD 1 default).value = round2 (32 / 16)
    ∧ round2 ((212 - 32) * (5 / 9)) = 100
    ∧ round2 ((32 : ℚ) / 16) = 2 := by
  have h0 := C7_unitConvert_formulas rawObsEx 0 (by decide)
  have h1 := C7_unitConvert_formulas rawObsEx 1 (by decide)
  refine ⟨?_, ?_, ?_, ?_⟩
  · have := h0.2.2.1 (by decide)
    simpa [rawObsEx] using this
  · have := h1.2.2.2.1 (by decide)
    simpa [rawObsEx] using this
  · have h100 : ((212 : ℚ) - 32) * (5 / 9) = 100 := by norm_num
    rw [h100]
    norm_num [round2, roundHalfEven, Int.fract]
  · have h2 : ((32 : ℚ) / 16) = 2 := by norm_num
    rw [h2]
    norm_num [round2, roundHalfEven, Int.fract]

/-- C8: every raw observation named by the fixed exclusion list — in
particular `bun` and `map` — is removed before pivoting, so the pivoted
table (and hence the hourly table) has no `bun` or `map` column, and the
guarded derived columns `bun_cr_ratio` and `map_zscore` are never created
by `create_advanced_features`, whatever the raw input was. -/
theorem C8_excluded_columns_never_present (rows : List RawObs) :
    "bun" ∉ hourlyBaseColumns rows
    ∧ "map" ∉ hourlyBaseColumns rows
    ∧ "bun_cr_ratio" ∉ advancedColumns (hourlyBaseColumns rows)
    ∧ "map_zscore" ∉ advancedColumns (hourlyBaseColumns rows) := by
  have hpivot : ∀ v : String, v ∈ droppedVariables → v ∉ pivotColumns rows := by
    intro v hv hmem
    rw [pivotColumns, List.mem_dedup] at hmem
    obtain ⟨o, ho, rfl⟩ := List.mem_map.mp hmem
    rw [filterDropped, List.mem_filter] at ho
    have := ho.2
    rw [Bool.not_eq_eq_eq_not, Bool.not_true] at this
    exact absurd (List.elem_iff.mpr hv) (by simp [List.contains] at this ⊢; exact this)
  have hbun : "bun" ∉ hourlyBaseColumns rows := by
    rw [hourlyBaseColumns, List.mem_append]
    rintro (h4 | hp)
    · simp at h4
    · exact hpivot "bun" (by decide) hp
  have hmap : "map" ∉ hourlyBaseColumns rows := by
    rw [hourlyBaseColumns, List.mem_append]
    rintro (h4 | hp)
    · simp at h4
    · exact hpivot "map" (by decide) hp
  refine ⟨hbun, hmap, ?_, ?_⟩
  · intro hmem
    rw [advancedColumns] at hmem
    simp only [List.mem_append] at hmem
    rcases hmem with ((((((hroc | hbcr) | hsf) | hnl) | hag) | hsi) | hzs) | hsc
    · obtain ⟨c, hc, hceq⟩ := List.mem_map.mp hroc
      have hc6 := (List.mem_filter.mp hc).1
      fin_cases hc6 <;> simp_all
    · revert hbcr
      split
      · rename_i hcond
        exact absurd hcond.1 hbun
      · simp
    · revert hsf
      split <;> simp
    · revert hnl
      split <;> simp
    · revert hag
      split <;> simp
    · revert hsi
      split <;> simp
    · obtain ⟨c, hc, hceq⟩ := List.mem_map.mp hzs
      have hc4 := (List.mem_filter.mp hc).1
      fin_cases hc4 <;> simp_all
    · simp at hsc
  · intro hmem
    rw [advancedColumns] at hmem
    simp only [List.mem_append] at hmem
    rcases hmem with ((((((hroc | hbcr) | hsf) | hnl) | hag) | hsi) | hzs) | hsc
    · obtain ⟨c, hc, hceq⟩ := List.mem_map.mp hroc
      have hc6 := (List.mem_filter.mp hc).1
      fin_cases hc6 <;> simp_all
    · revert hbcr
      split <;> simp
    · revert hsf
      split <;> simp
    · revert hnl
      split <;> simp
    · revert hag
      split <;> simp
    · revert hsi
      split <;> simp
    · obtain ⟨c, hc, hceq⟩ := List.mem_map.mp hzs
      have hc4 := (List.mem_filter.mp hc).1
      fin_cases hc4
      · simp_all
      · simp_all
      · simp_all
      · have hcf := List.mem_filter.mp hc
        have hcm : "map" ∈ hourlyBaseColumns rows := by
          simpa [List.elem_iff] using hcf.2
        exact hmap hcm
    · simp at hsc

/-- Helper: the length of a forward-filled column. -/
theorem ffillFrom_length (s : List Cell) : ∀ last : Cell, (ffillFrom last s).length = s.length := by
  induction s with
  | nil => intro last; rfl
  | cons x rest ih =>
      intro last
      cases x <;> simp [ffillFrom, ih]

/-- Helper: cell `i` of a forward-filled column is the last realized value
at or before `i`, or the carried-in value when there is none. -/
theorem ffillFrom_getD (s : List Cell) : ∀ (last : Cell) (i : ℕ), i < s.length →
    (ffillFrom last s).getD i none =
      (match ((s.take (i + 1)).filterMap id).getLast? with
       | some v => some v
       | none => last) := by
  induction s with
  | nil => intro last i hi; simp at hi
  | cons x rest ih =>
      intro last i hi
      cases x with
      | some v =>
          cases i with
          | zero => simp [ffillFrom, List.filterMap_cons]
          | succ n =>
              have hn : n < rest.length := by simpa using hi
              have hrec := ih (some v) n hn
              simp only [ffillFrom, List.getD_cons_succ, hrec, List.take_succ_cons,
                List.filterMap_cons, id_eq]
              cases hlast : ((rest.take (n + 1)).filterMap id).getLast? with
              | none =>
                  rw [List.getLast?_eq_none_iff.mp hlast]
                  simp
              | some w =>
                  have hne : (rest.take (n + 1)).filterMap id ≠ [] := by
                    intro hnil
                    rw [hnil] at hlast
                    simp at hlast
                  cases hl : (rest.take (n + 1)).filterMap id with
                  | nil => exact absurd hl hne
                  | cons b t =>
                      rw [hl] at hlast
                      simp [List.getLast?_cons, hlast]
      | none =>
          cases i with
          | zero => simp [ffillFrom, List.filterMap_cons]
          | succ n =>
              have hn : n < rest.length := by simpa using hi
              have hrec := ih last n hn
              simpa [ffillFrom, List.filterMap_cons] using hrec

/-- Helper: `ffill` in terms of the last realized value at or before `i`. -/
theorem ffill_getD (s : List Cell) (i : ℕ) (hi : i < s.length) :
    (ffill s).getD i none = lastRealizedAt s i := by
  rw [ffill, ffillFrom_getD s none i hi, lastRealizedAt]
  cases ((s.take (i + 1)).filterMap id).getLast? <;> rfl

/-- Helper: the median of a nonempty sample is a realized number. -/
theorem medianQ_isSome (xs : List ℚ) (hxs : xs ≠ []) : ∃ v, medianQ xs = some v := by
  unfold medianQ sortAsc
  have hlen : (List.insertionSort (· ≤ ·) xs).length = xs.length :=
    List.length_insertionSort _ _
  have hne : ¬(List.insertionSort (· ≤ ·) xs).length = 0 := by
    rw [hlen]
    exact fun h0 => hxs (List.length_eq_zero.mp h0)
  rw [if_neg hne]
  split
  · exact ⟨_, rfl⟩
  · exact ⟨_, rfl⟩

/-- C3 (counterexample): encounter A has temperature 5 at hour 0 and
nothing afterwards; the population of realized temperatures is {5, 1, 1}
with median 1.  The code's uncapped forward fill carries 5 into hour 2,
while the claimed limit-capped fill (with `limit = 1`) stops after hour 1
and hour 2 instead receives the population median 1 — so the Imputer does
not cap its look-back at any `limit`. -/
theorem C3_ffill_limit_counterexample :
    codeImputeTemp impEncsEx = [[some 5, some 5, some 5], [some 1], [some 1]]
    ∧ specImputeTemp 1 impEncsEx = [[some 5, some 5, some 1], [some 1], [some 1]]
    ∧ codeImputeTemp impEncsEx ≠ specImputeTemp 1 impEncsEx := by decide

/-- C3 (amended): the imputation of the temperature-correction step
forward-fills the temperature column per encounter WITHOUT any look-back
cap — cell `i` becomes the last realized temperature at or before hour `i`
however far back it lies — and only cells with no earlier realized value at
all receive the population median of realized temperatures; the resulting
column has no missing value as long as some temperature is realized
anywhere in the population.  Only this one derived column is imputed. -/
theorem C3_codeImputeTemp_uncapped (encs : List (List Cell)) (j i : ℕ)
    (hj : j < encs.length) (hi : i < (encs.getD j []).length) :
    ((codeImputeTemp encs).getD j []).length = (encs.getD j []).length
    ∧ ((codeImputeTemp encs).getD j []).getD i none =
        (match lastRealizedAt (encs.getD j []) i with
         | some v => some v
         | none => medianQ ((encs.flatMap id).filterMap id))
    ∧ ((encs.flatMap id).filterMap id ≠ [] →
        ∃ v : ℚ, ((codeImputeTemp encs).getD j []).getD i none = some v) := by
  have houter : (codeImputeTemp encs).getD j [] =
      (ffill (encs.getD j [])).map fun c =>
        match c with
        | some v => some v
        | none => medianQ ((encs.flatMap id).filterMap id) := by
    rw [codeImputeTemp, List.getD_eq_getElem?_getD, List.getElem?_map,
      List.getElem?_eq_getElem hj, List.getD_eq_getElem?_getD,
      List.getElem?_eq_getElem hj]
    rfl
  have hflen : (ffill (encs.getD j [])).length = (encs.getD j []).length :=
    ffillFrom_length _ none
  have hif : i < (ffill (encs.getD j [])).length := by
    rw [hflen]
    exact hi
  have hfi : (ffill (encs.getD j []))[i]? = some (lastRealizedAt (encs.getD j []) i) := by
    rw [← ffill_getD _ i hi,
      List.getD_eq_getElem?_getD (ffill (encs.getD j [])) i none,
      List.getElem?_eq_getElem hif]
    rfl
  have hcell : ((codeImputeTemp encs).getD j []).getD i none =
      (match lastRealizedAt (encs.getD j []) i with
       | some v => some v
       | none => medianQ ((encs.flatMap id).filterMap id)) := by
    rw [houter, List.getD_eq_getElem?_getD, List.getElem?_map, hfi]
    rfl
  refine ⟨by rw [houter]; simpa using hflen, hcell, fun hne => ?_⟩
  rw [hcell]
  cases hlast : lastRealizedAt (encs.getD j []) i with
  | some v => exact ⟨v, rfl⟩
  | none =>
      obtain ⟨v, hv⟩ := medianQ_isSome _ hne
      exact ⟨v, hv⟩

/-- C3 (witness of the amended claim): encounter A, hour 2 — the cell
is filled with 5, the value realized two hours earlier, and is non-missing. -/
theorem C3_codeImputeTemp_uncapped_witness :
    ((codeImputeTemp impEncsEx).getD 0 []).length = (impEncsEx.getD 0 []).length
    ∧ ((codeImputeTemp impEncsEx).getD 0 []).getD 2 none =
        (match lastRealizedAt (impEncsEx.getD 0 []) 2 with
         | some v => some v
         | none => medianQ ((impEncsEx.flatMap id).filterMap id))
    ∧ (∃ v : ℚ, ((codeImputeTemp impEncsEx).getD 0 []).getD 2 none = some v) := by
  have h := C3_codeImputeTemp_uncapped impEncsEx 0 2 (by decide) (by decide)
  exact ⟨h.1, h.2.1, h.2.2 (by decide)⟩

/-- Helper: an element of a `zipWith`, through `getD`. -/
theorem zipWith_getD {α β γ : Type} (f : α → β → γ) (l1 : List α) (l2 : List β)
    (d1 : α) (d2 : β) (d3 : γ) (i : ℕ) (h1 : i < l1.length) (h2 : i < l2.length) :
    (List.zipWith f l1 l2).getD i d3 = f (l1.getD i d1) (l2.getD i d2) := by
  induction l1 generalizing l2 i with
  | nil => simp at h1
  | cons a t ih =>
      cases l2 with
      | nil => simp at h2
      | cons b u =>
          cases i with
          | zero => rfl
          | succ n =>
              simp only [List.zipWith_cons_cons, List.getD_cons_succ]
              exact ih u n (by simpa using h1) (by simpa using h2)

/-- Helper: the `temp_imputed` column has one cell per row of the encounter. -/
theorem tempImputedCol_length (encs : List (List VitalRow)) (e : List VitalRow) :
    (tempImputedCol encs e).length = e.length := by
  simp [tempImputedCol, ffill, ffillFrom_length]

/-- Helper: cell `i` of `temp_imputed` is the last realized temperature at
or before hour `i`, or the population median of realized temperatures. -/
theorem tempImputedCol_getD (encs : List (List VitalRow)) (e : List VitalRow)
    (i : ℕ) (hi : i < e.length) :
    (tempImputedCol encs e).getD i none =
      (match lastRealizedAt (e.map VitalRow.temp) i with
       | some v => some v
       | none => medianQ ((encs.flatMap fun g => g.map VitalRow.temp).filterMap id)) := by
  have hit : i < (e.map VitalRow.temp).length := by simpa using hi
  have hif : i < (ffill (e.map VitalRow.temp)).length := by
    rw [ffill, ffillFrom_length]
    exact hit
  have hfi : (ffill (e.map VitalRow.temp))[i]?
      = some (lastRealizedAt (e.map VitalRow.temp) i) := by
    rw [← ffill_getD _ i hit,
      List.getD_eq_getElem?_getD (ffill (e.map VitalRow.temp)) i none,
      List.getElem?_eq_getElem hif]
    rfl
  rw [tempImputedCol, List.getD_eq_getElem?_getD, List.getElem?_map, hfi]
  rfl

/-- C9: final pulse and respiratory-rate values are temperature
corrected before the hourly aggregation: row `i` of encounter `j` leaves
the correction stage with `pulse − 10·(temp_imputed − 37)`, and with
`resp − 7·(temp_imputed − 37)` for age < 2 years, `resp − 5·(temp_imputed − 37)`
otherwise, where `temp_imputed` is the encounter-forward-filled temperature
(falling back to the population median before any realized value). -/
theorem C9_temperature_correction (encs : List (List VitalRow)) (j i : ℕ)
    (hj : j < encs.length) (hi : i < (encs.getD j []).length) :
    ((temperatureCorrection encs).getD j []).length = (encs.getD j []).length
    ∧ ((temperatureCorrection encs).getD j []).getD i default
        = { (encs.getD j []).getD i default with
            pulse := cmap2 (fun p t => p - 10 * (t - 37))
              ((encs.getD j []).getD i default).pulse
              ((tempImputedCol encs (encs.getD j [])).getD i none)
            resp :=
              if ((encs.getD j []).getD i default).ageYears < 2 then
                cmap2 (fun p t => p - 7 * (t - 37))
                  ((encs.getD j []).getD i default).resp
                  ((tempImputedCol encs (encs.getD j [])).getD i none)
              else
                cmap2 (fun p t => p - 5 * (t - 37))
                  ((encs.getD j []).getD i default).resp
                  ((tempImputedCol encs (encs.getD j [])).getD i none) }
    ∧ (tempImputedCol encs (encs.getD j [])).getD i none
        = (match lastRealizedAt ((encs.getD j []).map VitalRow.temp) i with
           | some v => some v
           | none => medianQ ((encs.flatMap fun g => g.map VitalRow.temp).filterMap id)) := by
  have houter : (temperatureCorrection encs).getD j []
      = correctEncounter encs (encs.getD j []) := by
    rw [temperatureCorrection, List.getD_eq_getElem?_getD, List.getElem?_map,
      List.getElem?_eq_getElem hj, List.getD_eq_getElem?_getD encs j [],
      List.getElem?_eq_getElem hj]
    rfl
  have hlen : (correctEncounter encs (encs.getD j [])).length = (encs.getD j []).length := by
    rw [correctEncounter, List.length_zipWith, tempImputedCol_length]
    exact Nat.min_self _
  refine ⟨by rw [houter]; exact hlen, ?_, tempImputedCol_getD encs _ i hi⟩
  rw [houter, correctEncounter,
    zipWith_getD _ _ _ default none default i hi (by rw [tempImputedCol_length]; exact hi)]

/-- C9 (witness): an encounter whose hour 1 has pulse 110, resp 25, a
missing temperature and age 1; the forward-filled temperature is 39 °C, so
the emitted pulse is `110 − 10·2 = 90` and (age < 2) resp is `25 − 7·2 = 11`
— the corrected values, not the raw measurements. -/
theorem C9_temperature_correction_witness :
    (((temperatureCorrection vitalEncsEx).getD 0 []).getD 1 default).pulse = some 90
    ∧ (((temperatureCorrection vitalEncsEx).getD 0 []).getD 1 default).resp = some 11 := by
  have h := C9_temperature_correction vitalEncsEx 0 1 (by decide) (by decide)
  have hti : (tempImputedCol vitalEncsEx (vitalEncsEx.getD 0 [])).getD 1 none
      = some 39 := by
    rw [h.2.2]
    rfl
  have hage : ((vitalEncsEx.getD 0 []).getD 1 default).ageYears < 2 := by
    show (1 : ℚ) < 2
    norm_num
  constructor
  · rw [h.2.1]
    show cmap2 (fun p t => p - 10 * (t - 37)) (some 110)
      ((tempImputedCol vitalEncsEx (vitalEncsEx.getD 0 [])).getD 1 none) = some 90
    rw [hti]
    show some (110 - 10 * ((39 : ℚ) - 37)) = some 90
    norm_num
  · rw [h.2.1]
    show (if ((vitalEncsEx.getD 0 []).getD 1 default).ageYears < 2 then
        cmap2 (fun p t => p - 7 * (t - 37)) (some 25)
          ((tempImputedCol vitalEncsEx (vitalEncsEx.getD 0 [])).getD 1 none)
      else
        cmap2 (fun p t => p - 5 * (t - 37)) (some 25)
          ((tempImputedCol vitalEncsEx (vitalEncsEx.getD 0 [])).getD 1 none)) = some 11
    rw [if_pos hage, hti]
    show some (25 - 7 * ((39 : ℚ) - 37)) = some 11
    norm_num

/-- Helper: bounds on the hour index from the rel_day window. -/
theorem hour_bounds_of_relDay (d : ℚ) (h1 : 0 < ⌈d / 86400⌉) (h2 : ⌈d / 86400⌉ < 8) :
    0 ≤ ⌊d / 3600⌋ ∧ ⌊d / 3600⌋ ≤ 168 := by
  have hd0 : (0 : ℚ) < d / 86400 := by exact_mod_cast Int.lt_ceil.mp h1
  have hdpos : (0 : ℚ) < d := by
    rw [lt_div_iff₀ (by norm_num : (0 : ℚ) < 86400)] at hd0
    linarith
  have h7 : ⌈d / 86400⌉ ≤ 7 := by omega
  have hdle : d ≤ 604800 := by
    have := Int.ceil_le.mp h7
    rw [div_le_iff₀ (by norm_num : (0 : ℚ) < 86400)] at this
    push_cast at this
    linarith
  constructor
  · exact Int.le_floor.mpr (by positivity)
  · have hqle : d / 3600 ≤ (168 : ℚ) := by
      rw [div_le_iff₀ (by norm_num : (0 : ℚ) < 3600)]
      linarith
    have := Int.floor_le_floor (α := ℚ) hqle
    simpa using this

/-- C10: when every row of an encounter carries the encounter's one
admission timestamp, every row surviving the first-week filter has
`0 < rel_day < 8` (the ceiling of elapsed days is strictly between 0 and 8)
and its hour index — floored elapsed hours since the group's minimum
admission time — is defined, non-negative and at most 168. -/
theorem C10_first_week_hour_bounds (obs : List TimedObs) (o : TimedObs)
    (hadm : ∀ o1 ∈ obs, ∀ o2 ∈ obs, o1.csn = o2.csn → o1.admission = o2.admission)
    (ho : o ∈ keepFirstWeek obs) :
    (0 < relDay o ∧ relDay o < 8)
    ∧ ∃ h : ℤ, hourOfRow (keepFirstWeek obs) o = some h ∧ 0 ≤ h ∧ h ≤ 168 := by
  have hmem := List.mem_filter.mp ho
  have hrel : 0 < relDay o ∧ relDay o < 8 := of_decide_eq_true hmem.2
  refine ⟨hrel, ?_⟩
  have hgrp : o ∈ (keepFirstWeek obs).filter fun x => x.csn == o.csn :=
    List.mem_filter.mpr ⟨ho, by simp⟩
  have hadm_mem : o.admission ∈
      ((keepFirstWeek obs).filter fun x => x.csn == o.csn).map TimedObs.admission :=
    List.mem_map.mpr ⟨o, hgrp, rfl⟩
  have hne : ((keepFirstWeek obs).filter fun x => x.csn == o.csn).map TimedObs.admission
      ≠ [] := List.ne_nil_of_mem hadm_mem
  obtain ⟨m, hm⟩ : ∃ m, (((keepFirstWeek obs).filter fun x => x.csn == o.csn).map
      TimedObs.admission).min? = some m := by
    cases hq : (((keepFirstWeek obs).filter fun x => x.csn == o.csn).map
        TimedObs.admission).min? with
    | none => exact absurd (List.min?_eq_none_iff.mp hq) hne
    | some m => exact ⟨m, rfl⟩
  have hm_mem := List.min?_mem min_choice hm
  obtain ⟨o2, ho2, hmo2⟩ := List.mem_map.mp hm_mem
  have ho2f := List.mem_filter.mp ho2
  have ho2obs : o2 ∈ obs := (List.mem_filter.mp ho2f.1).1
  have hoobs : o ∈ obs := hmem.1
  have hcsn : o2.csn = o.csn := by simpa using ho2f.2
  have hmadm : m = o.admission := by
    rw [← hmo2]
    exact hadm o2 ho2obs o hoobs hcsn
  have hhour : hourOfRow (keepFirstWeek obs) o
      = some ⌊(o.recorded - o.admission) / 3600⌋ := by
    rw [hourOfRow, groupMinAdmission, hm, hmadm]
    rfl
  obtain ⟨hge, hle⟩ := hour_bounds_of_relDay (o.recorded - o.admission) hrel.1 hrel.2
  exact ⟨_, hhour, hge, hle⟩

/-- C10 (witness): a single observation recorded exactly one hour after
admission has `rel_day = 1` and hour index 1 ∈ [0, 168]. -/
theorem C10_first_week_hour_bounds_witness :
    (0 < relDay timedObsEx ∧ relDay timedObsEx < 8)
    ∧ ∃ h : ℤ, hourOfRow (keepFirstWeek timedTableEx) timedObsEx = some h
        ∧ 0 ≤ h ∧ h ≤ 168 := by
  have hrel : relDay timedObsEx = 1 := by
    rw [relDay]
    rw [Int.ceil_eq_iff]
    constructor
    · show ((1 : ℤ) : ℚ) - 1 < ((3600 : ℚ) - 0) / 86400
      norm_num
    · show ((3600 : ℚ) - 0) / 86400 ≤ ((1 : ℤ) : ℚ)
      norm_num
  have hkeep : timedObsEx ∈ keepFirstWeek timedTableEx := by
    rw [keepFirstWeek, timedTableEx]
    show timedObsEx ∈ List.filter _ [timedObsEx]
    rw [List.filter_cons]
    rw [if_pos (by rw [hrel]; decide)]
    exact List.mem_singleton.mpr rfl
  exact C10_first_week_hour_bounds timedTableEx timedObsEx (by decide) hkeep

/-- Helper: in a sorted list, `getD` is monotone over in-range indices. -/
theorem sorted_getD_mono (ys : List ℚ) (hs : ys.Sorted (· ≤ ·)) (a b : ℕ)
    (hab : a ≤ b) (hb : b < ys.length) : ys.getD a 0 ≤ ys.getD b 0 := by
  have ha : a < ys.length := lt_of_le_of_lt hab hb
  rw [List.getD_eq_getElem?_getD ys a 0, List.getElem?_eq_getElem ha,
    List.getD_eq_getElem?_getD ys b 0, List.getElem?_eq_getElem hb]
  show ys[a] ≤ ys[b]
  exact hs.rel_get_of_le (a := ⟨a, ha⟩) (b := ⟨b, hb⟩) hab

/-- Helper: the interpolated order statistic lies between the order
statistics at the floor and ceiling indices of its position. -/
theorem quantilePos_bounds (ys : List ℚ) (hs : ys.Sorted (· ≤ ·)) (p : ℚ)
    (hne : ys ≠ []) (hub : p ≤ (ys.length : ℚ) - 1) :
    ys.getD (⌊p⌋).toNat 0 ≤ quantilePos ys p
    ∧ quantilePos ys p ≤ ys.getD (⌈p⌉).toNat 0 := by
  have hn1 : 1 ≤ ys.length := List.length_pos.mpr hne
  have hcle : ⌈p⌉ ≤ (ys.length : ℤ) - 1 := by
    rw [Int.ceil_le]
    push_cast
    exact hub
  have hjlt : (⌈p⌉).toNat < ys.length := by omega
  have hijle : (⌊p⌋).toNat ≤ (⌈p⌉).toNat := Int.toNat_le_toNat (Int.floor_le_ceil p)
  have hab : ys.getD (⌊p⌋).toNat 0 ≤ ys.getD (⌈p⌉).toNat 0 :=
    sorted_getD_mono ys hs _ _ hijle hjlt
  have hf0 : 0 ≤ p - ⌊p⌋ := by
    have := Int.floor_le p
    linarith
  have hf1 : p - ⌊p⌋ ≤ 1 := by
    have := Int.lt_floor_add_one p
    push_cast at this
    linarith
  constructor
  · rw [quantilePos]
    nlinarith [mul_nonneg hf0 (sub_nonneg.mpr hab)]
  · rw [quantilePos]
    nlinarith [mul_nonneg (sub_nonneg.mpr hf1) (sub_nonneg.mpr hab)]

/-- Helper: the interpolated order statistic is monotone in the position,
over a sorted list. -/
theorem quantilePos_mono (ys : List ℚ) (hs : ys.Sorted (· ≤ ·)) (p q : ℚ)
    (hne : ys ≠ []) (hpq : p ≤ q) (hub : q ≤ (ys.length : ℚ) - 1) :
    quantilePos ys p ≤ quantilePos ys q := by
  have hn1 : 1 ≤ ys.length := List.length_pos.mpr hne
  have hubp : p ≤ (ys.length : ℚ) - 1 := le_trans hpq hub
  have hfle : ⌊p⌋ ≤ ⌊q⌋ := Int.floor_le_floor hpq
  have hqfle : ⌊q⌋ ≤ (ys.length : ℤ) - 1 := by
    have := Int.floor_le_floor hub
    rwa [show ((ys.length : ℚ) - 1) = (((ys.length : ℤ) - 1 : ℤ) : ℚ) by push_cast; ring,
      Int.floor_intCast] at this
  rcases lt_or_eq_of_le hfle with hlt | heqf
  · have hup := (quantilePos_bounds ys hs p hne hubp).2
    have hlo := (quantilePos_bounds ys hs q hne hub).1
    have hcp : ⌈p⌉ ≤ ⌊q⌋ := le_trans (Int.ceil_le_floor_add_one p) (by omega)
    have hmid : ys.getD (⌈p⌉).toNat 0 ≤ ys.getD (⌊q⌋).toNat 0 :=
      sorted_getD_mono ys hs _ _ (Int.toNat_le_toNat hcp) (by omega)
    linarith
  · by_cases hfz : p - ⌊p⌋ = 0
    · have hpv : quantilePos ys p = ys.getD (⌊p⌋).toNat 0 := by
        rw [quantilePos, hfz]
        ring
      have hlo := (quantilePos_bounds ys hs q hne hub).1
      rw [hpv, heqf]
      exact hlo
    · have hf0 : 0 < p - ⌊p⌋ := by
        have := Int.floor_le p
        rcases lt_or_eq_of_le this with h | h
        · linarith
        · exact absurd (by linarith : p - ⌊p⌋ = 0) hfz
      have hfq0 : 0 < q - ⌊q⌋ := by
        rw [← heqf]
        have := sub_le_sub_right hpq (⌊p⌋ : ℚ)
        linarith
      have hcp : ⌈p⌉ = ⌊p⌋ + 1 := by
        have h1 : ⌊p⌋ < ⌈p⌉ := by
          rw [Int.lt_ceil]
          have := Int.floor_le p
          linarith
        have h2 := Int.ceil_le_floor_add_one p
        omega
      have hcq : ⌈q⌉ = ⌊q⌋ + 1 := by
        have h1 : ⌊q⌋ < ⌈q⌉ := by
          rw [Int.lt_ceil]
          have := Int.floor_le q
          linarith
        have h2 := Int.ceil_le_floor_add_one q
        omega
      have hcqle : ⌈q⌉ ≤ (ys.length : ℤ) - 1 := by
        rw [Int.ceil_le]
        push_cast
        exact hub
      have hjlt : (⌈q⌉).toNat < ys.length := by omega
      have hblea : ys.getD (⌊q⌋).toNat 0 ≤ ys.getD (⌈q⌉).toNat 0 :=
        sorted_getD_mono ys hs _ _ (Int.toNat_le_toNat (Int.floor_le_ceil q)) hjlt
      rw [quantilePos, quantilePos, hcp, hcq, heqf]
      have hfle2 : p - ⌊q⌋ ≤ q - ⌊q⌋ := by linarith
      rw [hcq] at hblea
      nlinarith [mul_nonneg (sub_nonneg.mpr hfle2)
        (sub_nonneg.mpr hblea)]

/-- Helper: for a nonempty sample and `0 ≤ q1 ≤ q2 ≤ 100`, both
percentiles are defined and ordered. -/
theorem nanpercentile_mono (xs : List ℚ) (hne : xs ≠ []) (q1 q2 : ℚ)
    (h12 : q1 ≤ q2) (h100 : q2 ≤ 100) :
    ∃ a b, nanpercentile xs q1 = some a ∧ nanpercentile xs q2 = some b ∧ a ≤ b := by
  have hempty : xs.isEmpty = false := by
    cases xs with
    | nil => exact absurd rfl hne
    | cons a l => rfl
  have hn1 : 1 ≤ xs.length := List.length_pos.mpr hne
  have hn1q : (0 : ℚ) ≤ (xs.length : ℚ) - 1 := by
    have : (1 : ℚ) ≤ (xs.length : ℚ) := by exact_mod_cast hn1
    linarith
  have hsorted : (sortAsc xs).Sorted (· ≤ ·) := List.sorted_insertionSort _ xs
  have hslen : (sortAsc xs).length = xs.length := List.length_insertionSort _ xs
  have hsne : sortAsc xs ≠ [] := by
    intro hnil
    rw [hnil] at hslen
    simp at hslen
    exact hne (List.length_eq_zero.mp hslen.symm)
  refine ⟨quantilePos (sortAsc xs) (q1 / 100 * ((xs.length : ℚ) - 1)),
    quantilePos (sortAsc xs) (q2 / 100 * ((xs.length : ℚ) - 1)), ?_, ?_, ?_⟩
  · rw [nanpercentile, hempty]
    rfl
  · rw [nanpercentile, hempty]
    rfl
  · apply quantilePos_mono (sortAsc xs) hsorted _ _ hsne
    · have : q1 / 100 ≤ q2 / 100 := by linarith
      exact mul_le_mul_of_nonneg_right this hn1q
    · rw [hslen]
      have hq2 : q2 / 100 ≤ 1 := by linarith
      calc q2 / 100 * ((xs.length : ℚ) - 1)
          ≤ 1 * ((xs.length : ℚ) - 1) := mul_le_mul_of_nonneg_right hq2 hn1q
        _ = (xs.length : ℚ) - 1 := one_mul _

/-- Helper: a cell surviving `clip(lower, upper)` with ordered realized
bounds lies in the inclusive range. -/
theorem clipCell_bounds (lo hi v w : ℚ) (hlohi : lo ≤ hi)
    (h : clipCell (some lo) (some hi) (some v) = some w) : lo ≤ w ∧ w ≤ hi := by
  have hw : w = min hi (max lo v) := by
    have := h
    simp [clipCell] at this
    exact this.symm
  subst hw
  exact ⟨le_min hlohi (le_max_left _ _), min_le_left _ _⟩

/-- C5: the outlier-clipping loop keeps every column's name; columns
outside the vitals/labs vocabularies present in the table — and the
exempted `cap_refill` — are untouched; and for every clipped feature,
every realized value of the output column lies in the inclusive range
[p1, p99] of the population 1st and 99th percentiles computed over the
column's realized (non-imputed) values, which are defined and ordered. -/
theorem C5_outlierClip_range (table : List FeatureColumn) (j : ℕ) (hj : j < table.length) :
    ((outlierClip table).getD j default).name = (table.getD j default).name
    ∧ ((table.getD j default).name ∉ variablesToClip (table.map FeatureColumn.name) →
        (outlierClip table).getD j default = table.getD j default)
    ∧ ∀ v : ℚ, (table.getD j default).name ∈ variablesToClip (table.map FeatureColumn.name) →
        some v ∈ ((outlierClip table).getD j default).cells →
        ∃ p1 p99 : ℚ,
          nanpercentile (realizedVals (table.getD j default).cells) 1 = some p1
          ∧ nanpercentile (realizedVals (table.getD j default).cells) 99 = some p99
          ∧ p1 ≤ p99 ∧ p1 ≤ v ∧ v ≤ p99 := by
  have houter : (outlierClip table).getD j default =
      (if (table.getD j default).name ∈ variablesToClip (table.map FeatureColumn.name) then
        { table.getD j default with cells := clipColumn (table.getD j default).cells }
      else table.getD j default) := by
    rw [outlierClip, List.getD_eq_getElem?_getD, List.getElem?_map,
      List.getElem?_eq_getElem hj, List.getD_eq_getElem?_getD table j default,
      List.getElem?_eq_getElem hj]
    rfl
  refine ⟨?_, ?_, ?_⟩
  · rw [houter]
    split
    · rfl
    · rfl
  · intro hnot
    rw [houter, if_neg hnot]
  · intro v hclip hv
    rw [houter, if_pos hclip] at hv
    have hv2 : some v ∈ clipColumn (table.getD j default).cells := hv
    rw [clipColumn] at hv2
    obtain ⟨c, hc, hcv⟩ := List.mem_map.mp hv2
    cases c with
    | none => exact absurd hcv (by simp [clipCell])
    | some w =>
        have hwre : w ∈ realizedVals (table.getD j default).cells := by
          rw [realizedVals]
          exact List.mem_filterMap.mpr ⟨some w, hc, rfl⟩
        have hne : realizedVals (table.getD j default).cells ≠ [] :=
          List.ne_nil_of_mem hwre
        obtain ⟨p1, p99, hp1, hp99, hple⟩ :=
          nanpercentile_mono (realizedVals (table.getD j default).cells) hne 1 99
            (by norm_num) (by norm_num)
        rw [hp1, hp99] at hcv
        obtain ⟨hlo, hhi⟩ := clipCell_bounds p1 p99 w v hple hcv
        exact ⟨p1, p99, hp1, hp99, hple, hlo, hhi⟩

/-- C5 (witness): a one-cell pulse column with value 4: both
percentiles equal 4 and the surviving value 4 lies in [p1, p99]. -/
theorem C5_outlierClip_range_witness :
    ∃ p1 p99 : ℚ,
      nanpercentile (realizedVals (clipTableEx.getD 0 default).cells) 1 = some p1
      ∧ nanpercentile (realizedVals (clipTableEx.getD 0 default).cells) 99 = some p99
      ∧ p1 ≤ p99 ∧ p1 ≤ 4 ∧ 4 ≤ p99 := by
  have hreal : realizedVals [(some 4 : Cell)] = [4] := rfl
  have h1 : nanpercentile (realizedVals [(some 4 : Cell)]) 1 = some 4 := by
    rw [hreal]
    norm_num [nanpercentile, quantilePos, sortAsc, List.insertionSort,
      List.orderedInsert, Int.fract_zero, Int.floor_zero, Int.ceil_zero]
  have h99 : nanpercentile (realizedVals [(some 4 : Cell)]) 99 = some 4 := by
    rw [hreal]
    norm_num [nanpercentile, quantilePos, sortAsc, List.insertionSort,
      List.orderedInsert, Int.fract_zero, Int.floor_zero, Int.ceil_zero]
  have hcells : clipColumn [(some 4 : Cell)] = [some 4] := by
    rw [clipColumn, h1, h99]
    norm_num [clipCell]
  apply (C5_outlierClip_range clipTableEx 0 (by decide)).2.2 4 (by decide)
  show some 4 ∈ ((outlierClip clipTableEx).getD 0 default).cells
  have houter : (outlierClip clipTableEx).getD 0 default
      = { name := "pulse", cells := clipColumn [(some 4 : Cell)] } := by
    rw [outlierClip, clipTableEx]
    rw [List.map_cons, List.map_nil, List.getD_cons_zero,
      if_pos (by decide : ("pulse" : String) ∈
        variablesToClip (List.map FeatureColumn.name [⟨"pulse", [some 4]⟩]))]
  rw [houter, hcells]
  exact List.mem_singleton.mpr rfl

end MAAI
